import Mathlib

/-
Verification of AdapterRemoval's core record and classification logic.

The userconfig component (evaluate_alignment, parse_args normalization,
trim_sequence_by_quality_if_enabled) is embedded from src/src/userconfig.cc.
The fastq record type's own implementation file is not part of the sources;
its operations are modelled from the specification and cross-checked against
the repository's unit tests (src/unnamed/part_000).
-/

namespace AdapterRemoval

/-- Quality encodings supported by the program (spec 4.1, userconfig.cc). -/
inductive fastq_format
  | phred_33
  | phred_64
  | solexa
  deriving DecidableEq, Repr

/-- Error taxonomy of the record layer (spec section 7); the C++ source uses a
single fastq_error exception type, the spec distinguishes the causes. -/
inductive fastq_error
  | FormatError
  | SequenceError
  | EncodingError
  | RangeError
  deriving DecidableEq, Repr

/-- Raw alignment statistics consumed by evaluate_alignment
(alignment_info in alignment.h, spec section 3). -/
structure alignment_info where
  length : Nat
  n_ambiguous : Nat
  n_mismatches : Nat
  score : Int
  deriving DecidableEq, Repr

/-- Classification outcome of userconfig::evaluate_alignment. -/
inductive alignment_type
  | not_aligned
  | poor_alignment
  | valid_alignment
  deriving DecidableEq, Repr

/-- The configuration fields of userconfig consumed by the functions embedded
here (userconfig.h / userconfig.cc). The double mismatch_threshold is
embedded as a rational. -/
structure userconfig where
  mismatch_threshold : ℚ
  min_alignment_length : Nat
  collapse : Bool
  identify_adapters : Bool
  trim_by_quality : Bool
  trim_ambiguous_bases : Bool
  low_quality_score : Nat
  paired_ended_mode : Bool
  deriving DecidableEq, Repr

/-- Mismatch threshold computation of userconfig::evaluate_alignment
(userconfig.cc lines 239-245): floor of rate times aligned columns,
overridden to 0 below 6 aligned columns and capped at 1 below 10. -/
def mm_threshold (mismatch_threshold : ℚ) (n_aligned : Nat) : Nat :=
  if n_aligned < 6 then 0
  else if n_aligned < 10 then
    min 1 ((mismatch_threshold * (n_aligned : ℚ)).floor.toNat)
  else (mismatch_threshold * (n_aligned : ℚ)).floor.toNat

/-- userconfig::evaluate_alignment (userconfig.cc lines 230-264). -/
def evaluate_alignment (cfg : userconfig) (alignment : alignment_info) :
    alignment_type :=
  if alignment.length = 0 then .not_aligned
  else
    let n_aligned := alignment.length - alignment.n_ambiguous
    if mm_threshold cfg.mismatch_threshold n_aligned < alignment.n_mismatches then
      .not_aligned
    else if cfg.collapse || cfg.identify_adapters then
      if n_aligned < cfg.min_alignment_length then .not_aligned
      else .valid_alignment
    else if alignment.score ≤ 0 then .poor_alignment
    else .valid_alignment

/-- Mismatch rate normalization of userconfig::parse_args
(userconfig.cc lines 211-221). -/
def normalize_mismatch_threshold (mismatch_threshold : ℚ)
    (paired_ended_mode : Bool) : ℚ :=
  if 1 < mismatch_threshold then 1 / mismatch_threshold
  else if mismatch_threshold < 0 then
    if paired_ended_mode then 1 / 10 else 1 / 3
  else mismatch_threshold

/-- Errors the input-file validation chain of parse_args can report
(userconfig.cc lines 193-206). -/
inductive input_file_error
  | no_input
  | file2_without_file1
  deriving DecidableEq, Repr

/-- The input-file validation chain of userconfig::parse_args
(userconfig.cc lines 193-206): an else-if chain that may reset collapse,
report a missing-input error, or report the (dead) file2-without-file1
error; returns the reported error, if any, and the resulting collapse flag. -/
def check_input_files (collapse file_1_set file_2_set : Bool) :
    Option input_file_error × Bool :=
  if collapse && !file_2_set then (none, false)
  else if !(file_1_set || file_2_set) then (some .no_input, collapse)
  else if file_2_set && !file_2_set then (some .file2_without_file1, collapse)
  else (none, collapse)

/-- Modelled from the spec: the sequence record type (fastq in fastq.h; the
implementation file fastq.cc is not among the sources). A record holds a
header without the leading marker, an uppercase nucleotide sequence and a
quality string stored in the phred_33 representation (spec sections 3, 4.1). -/
structure fastq where
  header : List Char
  sequence : List Char
  qualities : List Char
  deriving DecidableEq, Repr

/-- Option-valued map over a list, failing when the function fails anywhere. -/
def mapOption (f : Char → Option Char) : List Char → Option (List Char)
  | [] => some []
  | c :: cs =>
    match f c, mapOption f cs with
    | some d, some ds => some (d :: ds)
    | _, _ => none

/-- Modelled from the spec: per-character normalization used by
fastq::clean_sequence (fastq.cc not among the sources): uppercase is kept,
lowercase is folded to uppercase, a dot becomes N, anything else is
rejected (spec 4.2, tests clean_lowercase / clean_dots /
reject_non_nucleotides). -/
def clean_char (c : Char) : Option Char :=
  if c = 'A' ∨ c = 'C' ∨ c = 'G' ∨ c = 'T' ∨ c = 'N' then some c
  else if c = 'a' then some 'A'
  else if c = 'c' then some 'C'
  else if c = 'g' then some 'G'
  else if c = 't' then some 'T'
  else if c = 'n' then some 'N'
  else if c = '.' then some 'N'
  else none

/-- Modelled from the spec: fastq::clean_sequence, in-place normalization of a
nucleotide string; fails on any non-nucleotide character (spec 4.2). -/
def clean_sequence (s : List Char) : Option (List Char) :=
  mapOption clean_char s

/-- Modelled from the spec: Solexa-to-Phred score conversion, the standard
logarithmic relationship round(10 * log10(10^(S/10) + 1)) tabulated for the
valid Solexa range; it agrees with the worked example of spec section 8
(the spec itself leaves the exact formula open, see its section 9). -/
def solexa_to_phred (s : Int) : Nat :=
  if 10 ≤ s then s.toNat
  else if s ≤ -4 then 1
  else if s ≤ -2 then 2
  else if s ≤ 0 then 3
  else if s ≤ 2 then 4
  else if s ≤ 4 then 5
  else (s + 1).toNat

/-- Modelled from the spec: decoding of one quality character under a declared
encoding into the internally stored phred_33 character; fails when the
character falls outside the encoding's valid range (spec 4.1, tests
constructor_score_boundries_...). Valid ranges: phred_33 accepts codes
33..74, phred_64 accepts 64..105, solexa accepts 59..105. -/
def decode_qual (enc : fastq_format) (c : Char) : Option Char :=
  match enc with
  | .phred_33 => if 33 ≤ c.toNat ∧ c.toNat ≤ 74 then some c else none
  | .phred_64 =>
    if 64 ≤ c.toNat ∧ c.toNat ≤ 105 then some (Char.ofNat (c.toNat - 31))
    else none
  | .solexa =>
    if 59 ≤ c.toNat ∧ c.toNat ≤ 105 then
      some (Char.ofNat (solexa_to_phred ((c.toNat : Int) - 64) + 33))
    else none

/-- Modelled from the spec: re-encoding of one stored phred_33 quality
character for output; parse_args restricts the output encoding to phred_33
or phred_64 (userconfig.cc lines 162-171), so only those are re-encoded.
Per the repository's test Writing_to_stream_phred_64_explicit, phred_64
output is clamped at the character h (score 40). -/
def encode_qual (enc : fastq_format) (c : Char) : Char :=
  match enc with
  | .phred_33 => c
  | .phred_64 => Char.ofNat (min (c.toNat + 31) 104)
  | .solexa => c

/-- Modelled from the spec: the fastq constructor's validation
(fastq.cc not among the sources). Per the repository's tests the length
check rejects exactly unequal sequence/quality lengths — an all-empty record
is accepted (tests constructor_empty_fields, constructor_field_lengths) —
then the sequence is cleaned and the qualities are decoded (spec 4.2). -/
def fastq_construct (header sequence qualities : List Char)
    (enc : fastq_format) : Except fastq_error fastq :=
  if sequence.length ≠ qualities.length then .error .FormatError
  else
    match clean_sequence sequence with
    | none => .error .SequenceError
    | some s =>
      match mapOption (decode_qual enc) qualities with
      | none => .error .EncodingError
      | some q => .ok ⟨header, s, q⟩

/-- Modelled from the spec: extraction of one line from a character stream,
mirroring std::getline — fails only when the stream is already exhausted,
and otherwise returns the characters before the first newline together with
the remainder after that newline (a final line needs no newline). -/
def getline : List Char → Option (List Char × List Char)
  | [] => none
  | c :: rest =>
    some ((c :: rest).takeWhile (fun x => x ≠ '\n'),
          ((c :: rest).dropWhile (fun x => x ≠ '\n')).drop 1)

/-- Modelled from the spec: fastq::read (fastq.cc not among the sources).
Reads four lines — marker-prefixed non-empty header, non-empty sequence,
separator starting with the plus marker, non-empty quality line — then
validates the record; returns none exactly when the stream is exhausted
before any byte of a new record is read (spec 4.2, the eof_... tests). -/
def fastq_read (enc : fastq_format) (input : List Char) :
    Except fastq_error (Option (fastq × List Char)) :=
  match getline input with
  | none => .ok none
  | some (hline, r1) =>
    match getline r1 with
    | none => .error .FormatError
    | some (sline, r2) =>
      match getline r2 with
      | none => .error .FormatError
      | some (pline, r3) =>
        match getline r3 with
        | none => .error .FormatError
        | some (qline, r4) =>
          if hline.head? = some '@' ∧ 2 ≤ hline.length ∧ sline ≠ [] ∧
             pline.head? = some '+' ∧ qline ≠ [] then
            match fastq_construct (hline.drop 1) sline qline enc with
            | .error e => .error e
            | .ok record => .ok (some (record, r4))
          else .error .FormatError

/-- Modelled from the spec: fastq::write (fastq.cc not among the sources).
Serializes the four lines, re-encoding the stored phred_33 qualities, and
always terminates with a newline (spec 4.2, Writing_to_stream tests). -/
def fastq_write (enc : fastq_format) (r : fastq) : List Char :=
  '@' :: r.header ++ '\n' :: r.sequence ++ '\n' :: '+' :: '\n' ::
    r.qualities.map (encode_qual enc) ++ ['\n']

/-- Modelled from the spec: fastq::truncate (fastq.cc not among the sources).
Keeps the span from start of the given length with substring semantics: the
length is silently capped at the available remainder, while a start beyond
the current length fails with RangeError (spec 4.2, truncate_... tests). -/
def fastq_truncate (start len : Nat) (r : fastq) : Except fastq_error fastq :=
  if r.sequence.length < start then .error .RangeError
  else .ok ⟨r.header, (r.sequence.drop start).take len,
            (r.qualities.drop start).take len⟩

/-- Modelled from the spec: the per-base removal condition of
fastq::trim_low_quality_bases — a base is removed while (trim_ambiguous and
the base is N) or (min_quality is non-negative and the base's phred score is
at most min_quality); the stored phred_33 character's score is its code
minus 33 (spec 4.2, trim_low_quality_bases__... tests). -/
def trimCond (trim_ambiguous : Bool) (min_quality : Int) (p : Char × Char) :
    Bool :=
  (trim_ambiguous && p.1 = 'N') ||
    (decide (0 ≤ min_quality) && decide ((p.2.toNat : Int) - 33 ≤ min_quality))

/-- Modelled from the spec: fastq::trim_low_quality_bases (fastq.cc not among
the sources). Removes qualifying bases from the 5-prime end, then from the
3-prime end of the remainder, returning the two counts and the trimmed
record (spec 4.2). -/
def trim_low_quality_bases (trim_ambiguous : Bool) (min_quality : Int)
    (r : fastq) : (Nat × Nat) × fastq :=
  let z := r.sequence.zip r.qualities
  let rest := z.dropWhile (trimCond trim_ambiguous min_quality)
  let kept := (rest.reverse.dropWhile (trimCond trim_ambiguous min_quality)).reverse
  ((z.length - rest.length, rest.length - kept.length),
   ⟨r.header, kept.map Prod.fst, kept.map Prod.snd⟩)

/-- userconfig::trim_sequence_by_quality_if_enabled (userconfig.cc lines
319-328): when either trimming flag is set, the record is trimmed with
trim_ambiguous_bases and low_quality_score as arguments; otherwise the
default-constructed (0, 0) count is returned and the record is unchanged. -/
def trim_sequence_by_quality_if_enabled (cfg : userconfig) (read : fastq) :
    (Nat × Nat) × fastq :=
  if cfg.trim_ambiguous_bases || cfg.trim_by_quality then
    trim_low_quality_bases cfg.trim_ambiguous_bases
      (cfg.low_quality_score : Int) read
  else ((0, 0), read)

section Helpers

lemma mm_threshold_of_lt6 (q : ℚ) (n : Nat) (h : n < 6) : mm_threshold q n = 0 := by
  unfold mm_threshold
  rw [if_pos h]

lemma mm_threshold_of_lt10 (q : ℚ) (n : Nat) (h6 : 6 ≤ n) (h10 : n < 10) :
    mm_threshold q n = min 1 ((q * (n : ℚ)).floor.toNat) := by
  unfold mm_threshold
  rw [if_neg (by omega), if_pos h10]

lemma evaluate_alignment_of_pos (cfg : userconfig) (a : alignment_info)
    (h0 : ¬ a.length = 0) :
    evaluate_alignment cfg a =
      (if mm_threshold cfg.mismatch_threshold (a.length - a.n_ambiguous) <
          a.n_mismatches then .not_aligned
       else if cfg.collapse || cfg.identify_adapters then
         if a.length - a.n_ambiguous < cfg.min_alignment_length then
           .not_aligned
         else .valid_alignment
       else if a.score ≤ 0 then .poor_alignment
       else .valid_alignment) := by
  unfold evaluate_alignment
  rw [if_neg h0]

end Helpers

/-- C1: for an alignment with positive length, with n_aligned the number of
unambiguous aligned columns, any nonzero mismatch count forces not_aligned
when n_aligned is below 6, and more than one mismatch forces not_aligned
when n_aligned is in the interval from 6 up to but excluding 10, regardless
of the configured mismatch rate; the effective threshold is the floor of
rate times n_aligned, overridden to 0 below 6 and capped at 1 below 10
(userconfig.cc lines 237-249). -/
theorem C1_short_overlap_mismatch_policy (cfg : userconfig)
    (a : alignment_info) (hlen : 0 < a.length)
    (hamb : a.n_ambiguous ≤ a.length) :
    (a.length - a.n_ambiguous < 6 → 0 < a.n_mismatches →
      evaluate_alignment cfg a = .not_aligned) ∧
    (6 ≤ a.length - a.n_ambiguous → a.length - a.n_ambiguous < 10 →
      1 < a.n_mismatches → evaluate_alignment cfg a = .not_aligned) ∧
    (a.length - a.n_ambiguous < 6 →
      mm_threshold cfg.mismatch_threshold (a.length - a.n_ambiguous) = 0) ∧
    (6 ≤ a.length - a.n_ambiguous → a.length - a.n_ambiguous < 10 →
      mm_threshold cfg.mismatch_threshold (a.length - a.n_ambiguous) =
        min 1 ((cfg.mismatch_threshold *
          ((a.length - a.n_ambiguous : Nat) : ℚ)).floor.toNat)) := by
  have h0 : ¬ a.length = 0 := by omega
  refine ⟨?_, ?_, ?_, ?_⟩
  · intro h6 hm
    rw [evaluate_alignment_of_pos cfg a h0,
        mm_threshold_of_lt6 cfg.mismatch_threshold _ h6, if_pos hm]
  · intro h6 h10 hm
    rw [evaluate_alignment_of_pos cfg a h0,
        mm_threshold_of_lt10 cfg.mismatch_threshold _ h6 h10,
        if_pos (by omega)]
  · intro h6
    exact mm_threshold_of_lt6 cfg.mismatch_threshold _ h6
  · intro h6 h10
    exact mm_threshold_of_lt10 cfg.mismatch_threshold _ h6 h10

/-- Concrete instantiation of C1: with rate 1/3 and a 5-column alignment with
one mismatch the classifier answers not_aligned, and with 8 aligned columns
and two mismatches it also answers not_aligned. -/
theorem C1_short_overlap_mismatch_policy_witness :
    evaluate_alignment ⟨1/3, 11, false, false, false, false, 2, false⟩
      ⟨5, 0, 1, 10⟩ = .not_aligned ∧
    evaluate_alignment ⟨1/3, 11, false, false, false, false, 2, false⟩
      ⟨8, 0, 2, 10⟩ = .not_aligned :=
  ⟨(C1_short_overlap_mismatch_policy
      ⟨1/3, 11, false, false, false, false, 2, false⟩ ⟨5, 0, 1, 10⟩
      (by decide) (by decide)).1 (by decide) (by decide),
   (C1_short_overlap_mismatch_policy
      ⟨1/3, 11, false, false, false, false, 2, false⟩ ⟨8, 0, 2, 10⟩
      (by decide) (by decide)).2.1 (by decide) (by decide) (by decide)⟩

/-- C2: an alignment of length zero is always not_aligned; an alignment of
positive length whose mismatch count passes the threshold test is classified
by mode — under collapse or identify-adapters it is not_aligned when the
unambiguous overlap is below min_alignment_length and valid_alignment
otherwise, and under plain adapter trimming it is poor_alignment when the
score is nonpositive and valid_alignment otherwise (userconfig.cc
lines 230-264). -/
theorem C2_mode_dependent_classification (cfg : userconfig)
    (a : alignment_info) :
    (a.length = 0 → evaluate_alignment cfg a = .not_aligned) ∧
    (0 < a.length →
      a.n_mismatches ≤
        mm_threshold cfg.mismatch_threshold (a.length - a.n_ambiguous) →
      ((cfg.collapse || cfg.identify_adapters) = true →
        evaluate_alignment cfg a =
          if a.length - a.n_ambiguous < cfg.min_alignment_length then
            .not_aligned
          else .valid_alignment) ∧
      ((cfg.collapse || cfg.identify_adapters) = false →
        evaluate_alignment cfg a =
          if a.score ≤ 0 then .poor_alignment else .valid_alignment)) := by
  constructor
  · intro h0
    unfold evaluate_alignment
    rw [if_pos h0]
  · intro hlen hpass
    have h0 : ¬ a.length = 0 := by omega
    rw [evaluate_alignment_of_pos cfg a h0, if_neg (by omega)]
    constructor
    · intro hc
      rw [hc, if_pos rfl]
    · intro hc
      rw [hc]
      simp

/-- Concrete instantiation of C2: a zero-length alignment is not_aligned; in
collapse mode a passing 8-column overlap below the minimum length 11 is
not_aligned, and in adapter-trim mode a passing alignment with positive
score is valid_alignment. -/
theorem C2_mode_dependent_classification_witness :
    evaluate_alignment ⟨1/3, 11, true, false, false, false, 2, false⟩
      ⟨0, 0, 0, 10⟩ = .not_aligned ∧
    evaluate_alignment ⟨1/3, 11, true, false, false, false, 2, false⟩
      ⟨8, 0, 0, 10⟩ =
      (if 8 - 0 < 11 then .not_aligned else .valid_alignment) ∧
    evaluate_alignment ⟨1/3, 11, false, false, false, false, 2, false⟩
      ⟨30, 0, 0, 25⟩ =
      (if (25 : Int) ≤ 0 then .poor_alignment else .valid_alignment) :=
  ⟨(C2_mode_dependent_classification
      ⟨1/3, 11, true, false, false, false, 2, false⟩ ⟨0, 0, 0, 10⟩).1 rfl,
   ((C2_mode_dependent_classification
      ⟨1/3, 11, true, false, false, false, 2, false⟩ ⟨8, 0, 0, 10⟩).2
      (by decide) (Nat.zero_le _)).1 (by decide),
   ((C2_mode_dependent_classification
      ⟨1/3, 11, false, false, false, false, 2, false⟩ ⟨30, 0, 0, 25⟩).2
      (by decide) (Nat.zero_le _)).2 (by decide)⟩

/-- C6: the mismatch-rate normalization of parse_args maps a configured value
above 1 to its reciprocal, a negative (unset) value to the default 1/10 in
paired-ended mode and 1/3 otherwise, and keeps a value between 0 and 1
unchanged (userconfig.cc lines 211-221). -/
theorem C6_mismatch_rate_normalization (mt : ℚ) (paired : Bool) :
    (1 < mt → normalize_mismatch_threshold mt paired = 1 / mt) ∧
    (mt < 0 → normalize_mismatch_threshold mt paired =
      if paired then 1 / 10 else 1 / 3) ∧
    (0 ≤ mt → mt ≤ 1 → normalize_mismatch_threshold mt paired = mt) := by
  refine ⟨?_, ?_, ?_⟩
  · intro h
    unfold normalize_mismatch_threshold
    rw [if_pos h]
  · intro h
    unfold normalize_mismatch_threshold
    rw [if_neg (by linarith), if_pos h]
  · intro h0 h1
    unfold normalize_mismatch_threshold
    rw [if_neg (by linarith), if_neg (by linarith)]

/-- Concrete instantiation of C6: a configured rate of 3 becomes 1/3, an unset
rate becomes 1/10 in paired mode, and a configured 1/4 is kept. -/
theorem C6_mismatch_rate_normalization_witness :
    normalize_mismatch_threshold 3 false = 1 / 3 ∧
    normalize_mismatch_threshold (-1) true = (if true then 1 / 10 else 1 / 3) ∧
    normalize_mismatch_threshold (1 / 4) false = 1 / 4 :=
  ⟨(C6_mismatch_rate_normalization 3 false).1 (by norm_num),
   (C6_mismatch_rate_normalization (-1) true).2.1 (by norm_num),
   (C6_mismatch_rate_normalization (1 / 4) false).2.2 (by norm_num)
     (by norm_num)⟩

/-- C10: the guard of the file2-without-file1 branch of parse_args is
file_2_set and not file_2_set, which is identically false, so the input-file
validation chain never reports file2_without_file1; in particular supplying
file2 without file1 passes the chain without an error (userconfig.cc
lines 202-206). -/
theorem C10_dead_file2_guard :
    ∀ (collapse file_1_set file_2_set : Bool),
      (check_input_files collapse file_1_set file_2_set).1 ≠
        some .file2_without_file1 ∧
      (check_input_files collapse false true).1 = none := by
  decide

section TrimLemmas

lemma dropWhile_head?_eq_false {α : Type} (p : α → Bool) (l : List α) :
    ∀ x, (l.dropWhile p).head? = some x → p x = false := by
  induction l with
  | nil =>
    intro x hx
    simp at hx
  | cons a t ih =>
    intro x hx
    rw [List.dropWhile_cons] at hx
    by_cases hpa : p a
    · rw [if_pos hpa] at hx
      exact ih x hx
    · rw [if_neg hpa] at hx
      rw [List.head?_cons, Option.some_inj] at hx
      subst hx
      cases hb : p a with
      | false => rfl
      | true => exact absurd hb hpa

lemma dropWhile_eq_self_of_head? {α : Type} (p : α → Bool) (l : List α)
    (h : ∀ x, l.head? = some x → p x = false) : l.dropWhile p = l := by
  cases l with
  | nil => rfl
  | cons a t =>
    have ha := h a rfl
    rw [List.dropWhile_cons, if_neg (by simp [ha])]

lemma dropWhile_dropWhile {α : Type} (p : α → Bool) (l : List α) :
    (l.dropWhile p).dropWhile p = l.dropWhile p :=
  dropWhile_eq_self_of_head? p _ (dropWhile_head?_eq_false p l)

lemma head?_append_left {α : Type} (l₁ l₂ : List α) (x : α)
    (h : l₁.head? = some x) : (l₁ ++ l₂).head? = some x := by
  cases l₁ with
  | nil => simp at h
  | cons a t => simpa using h

lemma zip_map_fst_snd_self {α β : Type} (l : List (α × β)) :
    (l.map Prod.fst).zip (l.map Prod.snd) = l := by
  induction l with
  | nil => rfl
  | cons a t ih => simp [ih]

lemma kept_dropWhile_eq_self {α : Type} (p : α → Bool) (l : List α) :
    (((l.dropWhile p).reverse.dropWhile p).reverse).dropWhile p =
      ((l.dropWhile p).reverse.dropWhile p).reverse := by
  apply dropWhile_eq_self_of_head?
  intro x hx
  obtain ⟨t, ht⟩ := List.dropWhile_suffix (l := (l.dropWhile p).reverse) p
  have hr : l.dropWhile p =
      ((l.dropWhile p).reverse.dropWhile p).reverse ++ t.reverse := by
    have h2 := congrArg List.reverse ht
    rw [List.reverse_append, List.reverse_reverse] at h2
    exact h2.symm
  apply dropWhile_head?_eq_false p l x
  rw [hr]
  exact head?_append_left _ _ x hx

lemma kept_reverse_dropWhile_eq_self {α : Type} (p : α → Bool) (l : List α) :
    (((l.dropWhile p).reverse.dropWhile p).reverse).reverse.dropWhile p =
      (((l.dropWhile p).reverse.dropWhile p).reverse).reverse := by
  rw [List.reverse_reverse]
  exact dropWhile_dropWhile p (l.dropWhile p).reverse

/-- Unfolded form of trim_low_quality_bases, convenient for rewriting. -/
lemma trim_low_quality_bases_eq (ta : Bool) (mq : Int) (r : fastq) :
    trim_low_quality_bases ta mq r =
      (((r.sequence.zip r.qualities).length -
          ((r.sequence.zip r.qualities).dropWhile (trimCond ta mq)).length,
        ((r.sequence.zip r.qualities).dropWhile (trimCond ta mq)).length -
          ((((r.sequence.zip r.qualities).dropWhile
              (trimCond ta mq)).reverse.dropWhile
                (trimCond ta mq)).reverse).length),
       ⟨r.header,
        ((((r.sequence.zip r.qualities).dropWhile
            (trimCond ta mq)).reverse.dropWhile
              (trimCond ta mq)).reverse).map Prod.fst,
        ((((r.sequence.zip r.qualities).dropWhile
            (trimCond ta mq)).reverse.dropWhile
              (trimCond ta mq)).reverse).map Prod.snd⟩) := rfl

end TrimLemmas

/-- C7: trimming never increases a record's length, the two trimmed counts
plus the resulting length give back the original length, and re-trimming
with the same parameters trims nothing further and leaves the record
unchanged (spec section 8, tests trim_low_quality_bases__...). -/
theorem C7_trim_algebra (ta : Bool) (mq : Int) (r : fastq)
    (h : r.sequence.length = r.qualities.length) :
    (trim_low_quality_bases ta mq r).2.sequence.length ≤ r.sequence.length ∧
    (trim_low_quality_bases ta mq r).1.1 +
      (trim_low_quality_bases ta mq r).1.2 +
      (trim_low_quality_bases ta mq r).2.sequence.length =
        r.sequence.length ∧
    trim_low_quality_bases ta mq (trim_low_quality_bases ta mq r).2 =
      ((0, 0), (trim_low_quality_bases ta mq r).2) := by
  have hzlen : (r.sequence.zip r.qualities).length = r.sequence.length := by
    rw [List.length_zip, ← h]
    omega
  have hrest_le :
      ((r.sequence.zip r.qualities).dropWhile (trimCond ta mq)).length ≤
        (r.sequence.zip r.qualities).length :=
    (List.dropWhile_suffix (trimCond ta mq)).length_le
  have hkept_le :
      ((((r.sequence.zip r.qualities).dropWhile
          (trimCond ta mq)).reverse.dropWhile
            (trimCond ta mq)).reverse).length ≤
        ((r.sequence.zip r.qualities).dropWhile (trimCond ta mq)).length := by
    rw [List.length_reverse]
    calc (((r.sequence.zip r.qualities).dropWhile
            (trimCond ta mq)).reverse.dropWhile (trimCond ta mq)).length
        ≤ (((r.sequence.zip r.qualities).dropWhile
            (trimCond ta mq)).reverse).length :=
          (List.dropWhile_suffix (trimCond ta mq)).length_le
      _ = ((r.sequence.zip r.qualities).dropWhile (trimCond ta mq)).length :=
          List.length_reverse _
  refine ⟨?_, ?_, ?_⟩
  · rw [trim_low_quality_bases_eq]
    simpa using le_trans hkept_le (le_trans hrest_le (le_of_eq hzlen))
  · rw [trim_low_quality_bases_eq]
    simp only [List.length_map]
    omega
  · rw [trim_low_quality_bases_eq]
    rw [trim_low_quality_bases_eq]
    simp only [zip_map_fst_snd_self]
    rw [kept_dropWhile_eq_self, kept_reverse_dropWhile_eq_self,
        List.reverse_reverse]
    simp

/-- Concrete instantiation of C7 at the record of the trim_mixed test. -/
theorem C7_trim_algebra_witness :
    (trim_low_quality_bases true 2
      ⟨['R', 'e', 'c'], ['N', 'T', 'N', 'T', 'A', 'G', 'N', 'T'],
       ['1', '!', '#', '$', '1', '2', '#', '\"']⟩).2.sequence.length ≤
      (['N', 'T', 'N', 'T', 'A', 'G', 'N', 'T'] : List Char).length ∧
    (trim_low_quality_bases true 2
      ⟨['R', 'e', 'c'], ['N', 'T', 'N', 'T', 'A', 'G', 'N', 'T'],
       ['1', '!', '#', '$', '1', '2', '#', '\"']⟩).1.1 +
      (trim_low_quality_bases true 2
        ⟨['R', 'e', 'c'], ['N', 'T', 'N', 'T', 'A', 'G', 'N', 'T'],
         ['1', '!', '#', '$', '1', '2', '#', '\"']⟩).1.2 +
      (trim_low_quality_bases true 2
        ⟨['R', 'e', 'c'], ['N', 'T', 'N', 'T', 'A', 'G', 'N', 'T'],
         ['1', '!', '#', '$', '1', '2', '#', '\"']⟩).2.sequence.length =
      (['N', 'T', 'N', 'T', 'A', 'G', 'N', 'T'] : List Char).length ∧
    trim_low_quality_bases true 2
      (trim_low_quality_bases true 2
        ⟨['R', 'e', 'c'], ['N', 'T', 'N', 'T', 'A', 'G', 'N', 'T'],
         ['1', '!', '#', '$', '1', '2', '#', '\"']⟩).2 =
      ((0, 0),
       (trim_low_quality_bases true 2
         ⟨['R', 'e', 'c'], ['N', 'T', 'N', 'T', 'A', 'G', 'N', 'T'],
          ['1', '!', '#', '$', '1', '2', '#', '\"']⟩).2) :=
  C7_trim_algebra true 2
    ⟨['R', 'e', 'c'], ['N', 'T', 'N', 'T', 'A', 'G', 'N', 'T'],
     ['1', '!', '#', '$', '1', '2', '#', '\"']⟩ (by decide)

/-- C5: whenever either trimming flag is set, trim_sequence_by_quality_if_enabled
performs the trim call with low_quality_score as the threshold
unconditionally — in particular with only trim_ambiguous_bases set, a leading
base whose quality score is at most low_quality_score is still trimmed — and
with both flags unset the record is returned unchanged with counts (0, 0)
(userconfig.cc lines 319-328). -/
theorem C5_quality_threshold_always_passed (cfg : userconfig) (r : fastq) :
    ((cfg.trim_ambiguous_bases || cfg.trim_by_quality) = true →
      trim_sequence_by_quality_if_enabled cfg r =
        trim_low_quality_bases cfg.trim_ambiguous_bases
          (cfg.low_quality_score : Int) r) ∧
    ((cfg.trim_ambiguous_bases || cfg.trim_by_quality) = false →
      trim_sequence_by_quality_if_enabled cfg r = ((0, 0), r)) ∧
    (cfg.trim_ambiguous_bases = true → cfg.trim_by_quality = false →
      ∀ c d, r.sequence.head? = some c → r.qualities.head? = some d →
        ((d.toNat : Int) - 33 ≤ (cfg.low_quality_score : Int)) →
        0 < (trim_sequence_by_quality_if_enabled cfg r).1.1) := by
  refine ⟨?_, ?_, ?_⟩
  · intro hflag
    unfold trim_sequence_by_quality_if_enabled
    rw [hflag]
    rfl
  · intro hflag
    unfold trim_sequence_by_quality_if_enabled
    rw [hflag]
    rfl
  · intro hta htq c d hc hd hq
    unfold trim_sequence_by_quality_if_enabled
    rw [hta, htq, if_pos (show (true || false) = true from rfl)]
    cases hseq : r.sequence with
    | nil => rw [hseq] at hc; simp at hc
    | cons a s2 =>
      cases hqual : r.qualities with
      | nil => rw [hqual] at hd; simp at hd
      | cons b q2 =>
        rw [hseq] at hc
        rw [hqual] at hd
        rw [List.head?_cons, Option.some_inj] at hc hd
        subst hc
        subst hd
        rw [trim_low_quality_bases_eq]
        simp only [hseq, hqual, List.zip_cons_cons]
        have hcond : trimCond true (cfg.low_quality_score : Int) (a, b) = true := by
          simp only [trimCond, Bool.or_eq_true, Bool.and_eq_true,
            decide_eq_true_eq]
          exact Or.inr ⟨Int.natCast_nonneg _, hq⟩
        rw [List.dropWhile_cons, if_pos hcond]
        have : (List.dropWhile (trimCond true (cfg.low_quality_score : Int))
            (s2.zip q2)).length ≤ (s2.zip q2).length :=
          (List.dropWhile_suffix _).length_le
        simp only [List.length_cons]
        omega

/-- Concrete instantiation of C5: with only trimns set, the leading base of
the trim_ns test record is removed; with quality trimming alone the call is
forwarded; with neither flag nothing happens. -/
theorem C5_quality_threshold_always_passed_witness :
    trim_sequence_by_quality_if_enabled
      ⟨1/3, 11, false, false, true, false, 2, false⟩
      ⟨['R'], ['A'], ['!']⟩ =
      trim_low_quality_bases false ((2 : Nat) : Int) ⟨['R'], ['A'], ['!']⟩ ∧
    trim_sequence_by_quality_if_enabled
      ⟨1/3, 11, false, false, false, false, 2, false⟩
      ⟨['R'], ['A'], ['!']⟩ = ((0, 0), ⟨['R'], ['A'], ['!']⟩) ∧
    0 < (trim_sequence_by_quality_if_enabled
      ⟨1/3, 11, false, false, false, true, 2, false⟩
      ⟨['R'], ['A'], ['!']⟩).1.1 :=
  ⟨(C5_quality_threshold_always_passed
      ⟨1/3, 11, false, false, true, false, 2, false⟩ ⟨['R'], ['A'], ['!']⟩).1
      (by decide),
   (C5_quality_threshold_always_passed
      ⟨1/3, 11, false, false, false, false, 2, false⟩ ⟨['R'], ['A'], ['!']⟩).2.1
      (by decide),
   (C5_quality_threshold_always_passed
      ⟨1/3, 11, false, false, false, true, 2, false⟩ ⟨['R'], ['A'], ['!']⟩).2.2
      rfl rfl 'A' '!' rfl rfl (by decide)⟩

/-- C8: truncate keeps the requested span with substring semantics — a length
beyond the available remainder is silently capped, a start strictly beyond
the record's length fails with RangeError while a start equal to the length
yields an empty record, and default arguments (start 0, unbounded length)
leave the record unchanged (spec 4.2, truncate_... tests). -/
theorem C8_truncate_boundaries (start len : Nat) (r : fastq)
    (h : r.sequence.length = r.qualities.length) :
    (start ≤ r.sequence.length → r.sequence.length - start ≤ len →
      fastq_truncate start len r =
        fastq_truncate start (r.sequence.length - start) r) ∧
    (r.sequence.length < start →
      fastq_truncate start len r = .error .RangeError) ∧
    (fastq_truncate r.sequence.length len r = .ok ⟨r.header, [], []⟩) ∧
    (r.sequence.length ≤ len → fastq_truncate 0 len r = .ok r) := by
  refine ⟨?_, ?_, ?_, ?_⟩
  · intro hstart hcap
    unfold fastq_truncate
    rw [if_neg (by omega)]
    have hs : (r.sequence.drop start).length ≤ len := by
      rw [List.length_drop]
      omega
    have hq : (r.qualities.drop start).length ≤ len := by
      rw [List.length_drop]
      omega
    have hs2 : (r.sequence.drop start).length ≤ r.sequence.length - start := by
      rw [List.length_drop]
    have hq2 : (r.qualities.drop start).length ≤ r.sequence.length - start := by
      rw [List.length_drop]
      omega
    rw [List.take_of_length_le hs, List.take_of_length_le hq,
        List.take_of_length_le hs2, List.take_of_length_le hq2,
        if_neg (by omega)]
  · intro hstart
    unfold fastq_truncate
    rw [if_pos hstart]
  · unfold fastq_truncate
    rw [if_neg (by omega)]
    rw [List.drop_length]
    rw [show r.sequence.length = r.qualities.length from h, List.drop_length]
    simp
  · intro hlen
    unfold fastq_truncate
    rw [if_neg (by omega)]
    simp only [List.drop_zero]
    rw [List.take_of_length_le hlen, List.take_of_length_le (by omega)]

/-- Concrete instantiation of C8 at the record of the truncate tests. -/
theorem C8_truncate_boundaries_witness :
    fastq_truncate 2 1024
      ⟨['R', 'e', 'c'], ['A', 'C', 'T', 'T', 'A', 'G'],
       ['1', '2', 'I', '$', '1', '2']⟩ =
      fastq_truncate 2 4
        ⟨['R', 'e', 'c'], ['A', 'C', 'T', 'T', 'A', 'G'],
         ['1', '2', 'I', '$', '1', '2']⟩ ∧
    fastq_truncate 7 0
      ⟨['R', 'e', 'c'], ['A', 'C', 'T', 'T', 'A', 'G'],
       ['1', '2', 'I', '$', '1', '2']⟩ = .error .RangeError ∧
    fastq_truncate 6 0
      ⟨['R', 'e', 'c'], ['A', 'C', 'T', 'T', 'A', 'G'],
       ['1', '2', 'I', '$', '1', '2']⟩ = .ok ⟨['R', 'e', 'c'], [], []⟩ ∧
    fastq_truncate 0 6
      ⟨['R', 'e', 'c'], ['A', 'C', 'T', 'T', 'A', 'G'],
       ['1', '2', 'I', '$', '1', '2']⟩ =
      .ok ⟨['R', 'e', 'c'], ['A', 'C', 'T', 'T', 'A', 'G'],
           ['1', '2', 'I', '$', '1', '2']⟩ :=
  ⟨(C8_truncate_boundaries 2 1024
      ⟨['R', 'e', 'c'], ['A', 'C', 'T', 'T', 'A', 'G'],
       ['1', '2', 'I', '$', '1', '2']⟩ (by decide)).1 (by decide) (by decide),
   (C8_truncate_boundaries 7 0
      ⟨['R', 'e', 'c'], ['A', 'C', 'T', 'T', 'A', 'G'],
       ['1', '2', 'I', '$', '1', '2']⟩ (by decide)).2.1 (by decide),
   (C8_truncate_boundaries 6 0
      ⟨['R', 'e', 'c'], ['A', 'C', 'T', 'T', 'A', 'G'],
       ['1', '2', 'I', '$', '1', '2']⟩ (by decide)).2.2.1,
   (C8_truncate_boundaries 0 6
      ⟨['R', 'e', 'c'], ['A', 'C', 'T', 'T', 'A', 'G'],
       ['1', '2', 'I', '$', '1', '2']⟩ (by decide)).2.2.2 (by decide)⟩

/-- C3 counterexample: constructing a record with empty header, sequence and
qualities succeeds — it does not fail with FormatError — contradicting the
claim that construction fails whenever either string is empty (repository
test constructor_empty_fields). -/
theorem C3_empty_record_accepted :
    fastq_construct [] [] [] .phred_33 = .ok ⟨[], [], []⟩ ∧
    ¬ fastq_construct [] [] [] .phred_33 = .error .FormatError := by
  constructor
  · rfl
  · intro hcontra
    rw [show fastq_construct [] [] [] .phred_33 = .ok ⟨[], [], []⟩ from rfl]
      at hcontra
    exact Except.noConfusion hcontra

/-- C3 amended: construction fails with FormatError exactly on unequal
sequence/quality lengths (hence when exactly one of the two is empty), and
succeeds on equal lengths — the all-empty record included — whenever the
sequence cleans and the qualities decode under the declared encoding. -/
theorem C3_constructor_validation (header sequence qualities : List Char)
    (enc : fastq_format) :
    (sequence.length ≠ qualities.length →
      fastq_construct header sequence qualities enc = .error .FormatError) ∧
    (∀ s2 q2, sequence.length = qualities.length →
      clean_sequence sequence = some s2 →
      mapOption (decode_qual enc) qualities = some q2 →
      fastq_construct header sequence qualities enc = .ok ⟨header, s2, q2⟩) := by
  constructor
  · intro hne
    unfold fastq_construct
    rw [if_pos hne]
  · intro s2 q2 hlen hclean hq
    unfold fastq_construct
    rw [if_neg (by omega)]
    rw [hclean, hq]

/-- Concrete instantiation of C3 as amended: a one-base sequence with empty
qualities fails with FormatError, and a lowercase-and-dot sequence with
matching qualities constructs successfully in cleaned form. -/
theorem C3_constructor_validation_witness :
    fastq_construct [] ['A'] [] .phred_33 = .error .FormatError ∧
    fastq_construct ['R'] ['a', '.'] ['!', 'I'] .phred_33 =
      .ok ⟨['R'], ['A', 'N'], ['!', 'I']⟩ :=
  ⟨(C3_constructor_validation [] ['A'] [] .phred_33).1 (by decide),
   (C3_constructor_validation ['R'] ['a', '.'] ['!', 'I'] .phred_33).2
     ['A', 'N'] ['!', 'I'] (by decide) (by decide) (by decide)⟩

section ReadLemmas

/-- Unfolded form of fastq_read once the header getline has succeeded. -/
lemma fastq_read_getline (enc : fastq_format) (input hline r1 : List Char)
    (h : getline input = some (hline, r1)) :
    fastq_read enc input =
      (match getline r1 with
       | none => .error .FormatError
       | some (sline, r2) =>
         match getline r2 with
         | none => .error .FormatError
         | some (pline, r3) =>
           match getline r3 with
           | none => .error .FormatError
           | some (qline, r4) =>
             if hline.head? = some '@' ∧ 2 ≤ hline.length ∧ sline ≠ [] ∧
                pline.head? = some '+' ∧ qline ≠ [] then
               match fastq_construct (hline.drop 1) sline qline enc with
               | .error e => .error e
               | .ok record => .ok (some (record, r4))
             else .error .FormatError) := by
  unfold fastq_read
  rw [h]

end ReadLemmas

/-- C4: fastq_read reports clean end-of-input (none, the C++ false) exactly
when the stream is empty before any byte of a new record is read; any
truncation in which one of the later getline calls hits end-of-input — mid
or after the header, after the sequence, after the separator, or with a
missing quality line — fails with FormatError (spec 4.2, the eof_... tests). -/
theorem C4_clean_eof_vs_truncation (enc : fastq_format) (input : List Char) :
    (fastq_read enc input = .ok none ↔ input = []) ∧
    (∀ hline r1, getline input = some (hline, r1) → getline r1 = none →
      fastq_read enc input = .error .FormatError) ∧
    (∀ hline r1 sline r2, getline input = some (hline, r1) →
      getline r1 = some (sline, r2) → getline r2 = none →
      fastq_read enc input = .error .FormatError) ∧
    (∀ hline r1 sline r2 pline r3, getline input = some (hline, r1) →
      getline r1 = some (sline, r2) → getline r2 = some (pline, r3) →
      getline r3 = none →
      fastq_read enc input = .error .FormatError) := by
  refine ⟨⟨?_, ?_⟩, ?_, ?_, ?_⟩
  · intro hok
    cases input with
    | nil => rfl
    | cons c cs =>
      exfalso
      rw [fastq_read_getline enc (c :: cs) _ _ rfl] at hok
      split at hok
      · exact Except.noConfusion hok
      · split at hok
        · exact Except.noConfusion hok
        · split at hok
          · exact Except.noConfusion hok
          · split at hok
            · split at hok
              · exact Except.noConfusion hok
              · simp at hok
            · exact Except.noConfusion hok
  · intro h
    subst h
    rfl
  · intro hline r1 h1 h2
    rw [fastq_read_getline enc input hline r1 h1]
    simp only [h2]
  · intro hline r1 sline r2 h1 h2 h3
    rw [fastq_read_getline enc input hline r1 h1]
    simp only [h2, h3]
  · intro hline r1 sline r2 pline r3 h1 h2 h3 h4
    rw [fastq_read_getline enc input hline r1 h1]
    simp only [h2, h3, h4]

/-- Concrete instantiation of C4: the empty stream reads as clean end-of-input,
a lone header line is a FormatError, and a record truncated after the
separator line is a FormatError. -/
theorem C4_clean_eof_vs_truncation_witness :
    fastq_read .phred_33 [] = .ok none ∧
    fastq_read .phred_33 ['@', 'r'] = .error .FormatError ∧
    fastq_read .phred_33 ['@', 'r', '\n', 'A', '\n', '+'] =
      .error .FormatError :=
  ⟨(C4_clean_eof_vs_truncation .phred_33 []).1.mpr rfl,
   (C4_clean_eof_vs_truncation .phred_33 ['@', 'r']).2.1 ['@', 'r'] []
     (by decide) (by decide),
   (C4_clean_eof_vs_truncation .phred_33
      ['@', 'r', '\n', 'A', '\n', '+']).2.2.2 ['@', 'r'] ['A', '\n', '+']
     ['A'] ['+'] ['+'] [] (by decide) (by decide) (by decide) (by decide)⟩

section RoundTripLemmas

lemma char_toNat_ofNat_valid (n : Nat) (h : n < 55296) :
    (Char.ofNat n).toNat = n := by
  simp only [Char.ofNat, Nat.isValidChar, Char.toNat, Char.ofNatAux]
  rw [dif_pos (Or.inl h)]
  simp [UInt32.toNat, BitVec.toNat_ofNatLt]

lemma takeWhile_append_stop {α : Type} (p : α → Bool) (l r : List α) (x : α)
    (hl : ∀ c ∈ l, p c = true) (hx : p x = false) :
    (l ++ x :: r).takeWhile p = l := by
  induction l with
  | nil => simp [List.takeWhile_cons, hx]
  | cons a t ih =>
    have ha : p a = true := hl a (by simp)
    simp only [List.cons_append, List.takeWhile_cons, ha, if_pos]
    rw [ih (fun c hc => hl c (by simp [hc]))]

lemma dropWhile_append_stop {α : Type} (p : α → Bool) (l r : List α) (x : α)
    (hl : ∀ c ∈ l, p c = true) (hx : p x = false) :
    (l ++ x :: r).dropWhile p = x :: r := by
  induction l with
  | nil => simp [List.dropWhile_cons, hx]
  | cons a t ih =>
    have ha : p a = true := hl a (by simp)
    simp only [List.cons_append, List.dropWhile_cons, ha, if_pos]
    exact ih (fun c hc => hl c (by simp [hc]))

lemma getline_eq_of_ne_nil (input : List Char) (h : input ≠ []) :
    getline input = some (input.takeWhile (fun x => x ≠ '\n'),
      (input.dropWhile (fun x => x ≠ '\n')).drop 1) := by
  cases input with
  | nil => exact absurd rfl h
  | cons a t => rfl

lemma getline_append (l r : List Char) (hl : ∀ c ∈ l, c ≠ '\n') :
    getline (l ++ '\n' :: r) = some (l, r) := by
  rw [getline_eq_of_ne_nil _ (by cases l <;> simp)]
  rw [takeWhile_append_stop _ l r '\n' (fun c hc => by simp [hl c hc])
        (by simp),
      dropWhile_append_stop _ l r '\n' (fun c hc => by simp [hl c hc])
        (by simp)]
  simp

lemma getline_no_newline (l : List Char) (h0 : l ≠ [])
    (hl : ∀ c ∈ l, c ≠ '\n') : getline l = some (l, []) := by
  rw [getline_eq_of_ne_nil _ h0]
  rw [List.takeWhile_eq_self_iff.mpr (fun c hc => by simp [hl c hc]),
      List.dropWhile_eq_nil_iff.mpr (fun c hc => by simp [hl c hc])]
  rfl

lemma mapOption_id_of_forall (f : Char → Option Char) :
    ∀ l : List Char, (∀ c ∈ l, f c = some c) → mapOption f l = some l := by
  intro l
  induction l with
  | nil => intro _; rfl
  | cons a t ih =>
    intro h
    unfold mapOption
    rw [h a (by simp), ih (fun c hc => h c (by simp [hc]))]

lemma mapOption_mem_total (f : Char → Option Char) :
    ∀ l l2 : List Char, mapOption f l = some l2 →
      ∀ c ∈ l, ∃ d, f c = some d := by
  intro l
  induction l with
  | nil => intro l2 _ c hc; simp at hc
  | cons a t ih =>
    intro l2 h c hc
    unfold mapOption at h
    cases ha : f a with
    | none => rw [ha] at h; exact Option.noConfusion h
    | some d =>
      cases hds : mapOption f t with
      | none => rw [ha, hds] at h; exact Option.noConfusion h
      | some ds =>
        rcases List.mem_cons.mp hc with rfl | hct
        · exact ⟨d, ha⟩
        · exact ih ds hds c hct

lemma decode_qual_ne_newline (enc : fastq_format) (c d : Char)
    (h : decode_qual enc c = some d) : c ≠ '\n' := by
  intro hc
  subst hc
  cases enc <;> exact Option.noConfusion h

lemma nucleotide_ne_newline (c : Char)
    (h : c = 'A' ∨ c = 'C' ∨ c = 'G' ∨ c = 'T' ∨ c = 'N') : c ≠ '\n' := by
  rcases h with rfl | rfl | rfl | rfl | rfl <;> decide

lemma clean_char_of_nucleotide (c : Char)
    (h : c = 'A' ∨ c = 'C' ∨ c = 'G' ∨ c = 'T' ∨ c = 'N') :
    clean_char c = some c := by
  rcases h with rfl | rfl | rfl | rfl | rfl <;> rfl

lemma encode_decode_qual (enc : fastq_format) (c d : Char)
    (henc : ¬ enc = .solexa) (h : decode_qual enc c = some d)
    (hcap : enc = .phred_64 → c.toNat ≤ 104) : encode_qual enc d = c := by
  cases enc with
  | phred_33 =>
    rw [show decode_qual .phred_33 c =
        (if 33 ≤ c.toNat ∧ c.toNat ≤ 74 then some c else none) from rfl] at h
    split at h
    · rw [Option.some_inj] at h
      subst h
      rfl
    · exact Option.noConfusion h
  | phred_64 =>
    rw [show decode_qual .phred_64 c =
        (if 64 ≤ c.toNat ∧ c.toNat ≤ 105 then
          some (Char.ofNat (c.toNat - 31)) else none) from rfl] at h
    split at h
    · rename_i hrange
      rw [Option.some_inj] at h
      subst h
      show Char.ofNat (min ((Char.ofNat (c.toNat - 31)).toNat + 31) 104) = c
      rw [char_toNat_ofNat_valid (c.toNat - 31) (by omega)]
      have hm : min (c.toNat - 31 + 31) 104 = c.toNat := by
        have := hcap rfl
        omega
      rw [hm, Char.ofNat_toNat]
    · exact Option.noConfusion h
  | solexa => exact absurd rfl henc

lemma map_encode_of_mapOption_decode (enc : fastq_format)
    (henc : ¬ enc = .solexa) :
    ∀ q qd : List Char, mapOption (decode_qual enc) q = some qd →
      (enc = .phred_64 → ∀ c ∈ q, c.toNat ≤ 104) →
      qd.map (encode_qual enc) = q := by
  intro q
  induction q with
  | nil =>
    intro qd h _
    rw [show mapOption (decode_qual enc) [] = some [] from rfl,
        Option.some_inj] at h
    subst h
    rfl
  | cons c cs ih =>
    intro qd h hcap
    unfold mapOption at h
    cases hd : decode_qual enc c with
    | none => rw [hd] at h; exact Option.noConfusion h
    | some d =>
      cases hds : mapOption (decode_qual enc) cs with
      | none => rw [hd, hds] at h; exact Option.noConfusion h
      | some ds =>
        rw [hd, hds, Option.some_inj] at h
        subst h
        rw [List.map_cons,
            encode_decode_qual enc c d henc hd
              (fun he => hcap he c (by simp)),
            ih ds hds (fun he c2 hc2 => hcap he c2 (by simp [hc2]))]

end RoundTripLemmas

/-- C9 counterexample: the valid phred_64 record text using quality character
i (score 41) parses, but writing the parsed record back under phred_64
produces quality character h (the phred_64 output clamp shown by the
repository test Writing_to_stream_phred_64_explicit), so the qualities of
the input text are not reproduced exactly. -/
theorem C9_phred64_clamp_breaks_roundtrip :
    fastq_read .phred_64 ['@', 'r', '\n', 'A', '\n', '+', '\n', 'i', '\n'] =
      .ok (some (⟨['r'], ['A'], ['J']⟩, [])) ∧
    fastq_write .phred_64 ⟨['r'], ['A'], ['J']⟩ =
      ['@', 'r', '\n', 'A', '\n', '+', '\n', 'h', '\n'] ∧
    ¬ (['@', 'r', '\n', 'A', '\n', '+', '\n', 'h', '\n'] : List Char) =
      ['@', 'r', '\n', 'A', '\n', '+', '\n', 'i', '\n'] := by
  refine ⟨rfl, rfl, by decide⟩

/-- C9 amended: for every valid record text — non-empty newline-free header,
non-empty clean sequence, qualities that decode under the declared encoding,
equal sequence/quality lengths, optional trailing newline — parsing under
phred_33 or phred_64 and writing back under the same encoding reproduces
the header, sequence and qualities exactly, provided under phred_64 that
every quality character is at most the character h (score 40, where the
phred_64 output clamps); the written output always ends with a newline, so
an input lacking the optional trailing newline gains one. -/
theorem C9_parse_write_roundtrip (enc : fastq_format)
    (h s q qd t : List Char)
    (henc : ¬ enc = .solexa)
    (hh : h ≠ []) (hhn : ∀ c ∈ h, c ≠ '\n')
    (hs : s ≠ [])
    (hsn : ∀ c ∈ s, c = 'A' ∨ c = 'C' ∨ c = 'G' ∨ c = 'T' ∨ c = 'N')
    (hlen : s.length = q.length)
    (hq : mapOption (decode_qual enc) q = some qd)
    (hcap : enc = .phred_64 → ∀ c ∈ q, c.toNat ≤ 104)
    (ht : t = [] ∨ t = ['\n']) :
    fastq_read enc
        (('@' :: h) ++ '\n' :: (s ++ '\n' :: ('+' :: '\n' :: (q ++ t)))) =
      .ok (some (⟨h, s, qd⟩, [])) ∧
    fastq_write enc ⟨h, s, qd⟩ =
      ('@' :: h) ++ '\n' :: (s ++ '\n' :: ('+' :: '\n' :: (q ++ ['\n']))) ∧
    (fastq_write enc ⟨h, s, qd⟩).getLast? = some '\n' := by
  have hq_ne : q ≠ [] := by
    intro h0
    rw [h0, List.length_nil, List.length_eq_zero] at hlen
    exact hs hlen
  have hqn : ∀ c ∈ q, c ≠ '\n' := by
    intro c hc
    obtain ⟨d, hd⟩ := mapOption_mem_total (decode_qual enc) q qd hq c hc
    exact decode_qual_ne_newline enc c d hd
  have hsn' : ∀ c ∈ s, c ≠ '\n' := fun c hc =>
    nucleotide_ne_newline c (hsn c hc)
  have g1 : getline
      (('@' :: h) ++ '\n' :: (s ++ '\n' :: ('+' :: '\n' :: (q ++ t)))) =
      some ('@' :: h, s ++ '\n' :: ('+' :: '\n' :: (q ++ t))) := by
    apply getline_append
    intro c hc
    rcases List.mem_cons.mp hc with rfl | hch
    · decide
    · exact hhn c hch
  have g2 : getline (s ++ '\n' :: ('+' :: '\n' :: (q ++ t))) =
      some (s, '+' :: '\n' :: (q ++ t)) := getline_append s _ hsn'
  have g3 : getline ('+' :: '\n' :: (q ++ t)) = some (['+'], q ++ t) := by
    have := getline_append ['+'] (q ++ t) (by intro c hc; simp at hc; subst hc; decide)
    simpa using this
  have g4 : getline (q ++ t) = some (q, []) := by
    rcases ht with rfl | rfl
    · rw [List.append_nil]
      exact getline_no_newline q hq_ne hqn
    · exact getline_append q [] hqn
  have hcons : fastq_construct h s q enc = .ok ⟨h, s, qd⟩ := by
    unfold fastq_construct
    rw [if_neg (by omega)]
    unfold clean_sequence
    rw [mapOption_id_of_forall clean_char s
        (fun c hc => clean_char_of_nucleotide c (hsn c hc)), hq]
  have hwrite : fastq_write enc ⟨h, s, qd⟩ =
      ('@' :: h) ++ '\n' :: (s ++ '\n' :: ('+' :: '\n' :: (q ++ ['\n']))) := by
    show ('@' :: h) ++ ('\n' :: s) ++ ('\n' :: '+' :: '\n' ::
        qd.map (encode_qual enc)) ++ ['\n'] = _
    rw [map_encode_of_mapOption_decode enc henc q qd hq hcap]
    simp [List.append_assoc]
  refine ⟨?_, hwrite, ?_⟩
  · rw [fastq_read_getline enc _ _ _ g1]
    simp only [g2, g3, g4]
    rw [if_pos ?_]
    · simp only [show ('@' :: h).drop 1 = h from rfl, hcons]
    · refine ⟨rfl, ?_, hs, rfl, hq_ne⟩
      have : 0 < h.length := List.length_pos.mpr hh
      simp only [List.length_cons]
      omega
  · rw [hwrite]
    have : ('@' :: h) ++ '\n' :: (s ++ '\n' :: ('+' :: '\n' :: (q ++ ['\n']))) =
        (('@' :: h) ++ '\n' :: (s ++ '\n' :: ('+' :: '\n' :: q))) ++ ['\n'] := by
      simp [List.append_assoc]
    rw [this, List.getLast?_concat]

/-- Concrete instantiation of the amended C9 at a small phred_33 record text
without a trailing newline. -/
theorem C9_parse_write_roundtrip_witness :
    fastq_read .phred_33
        (('@' :: ['r']) ++ '\n' ::
          (['A'] ++ '\n' :: ('+' :: '\n' :: (['!'] ++ [])))) =
      .ok (some (⟨['r'], ['A'], ['!']⟩, [])) ∧
    fastq_write .phred_33 ⟨['r'], ['A'], ['!']⟩ =
      ('@' :: ['r']) ++ '\n' ::
        (['A'] ++ '\n' :: ('+' :: '\n' :: (['!'] ++ ['\n']))) ∧
    (fastq_write .phred_33 ⟨['r'], ['A'], ['!']⟩).getLast? = some '\n' :=
  C9_parse_write_roundtrip .phred_33 ['r'] ['A'] ['!'] ['!'] []
    (by decide) (by decide) (by decide) (by decide) (by decide) (by decide)
    (by decide) (fun he => by exact absurd he (by decide)) (Or.inl rfl)

end AdapterRemoval
